import Mathlib

/-
Verification of the ModuLink chain-and-middleware execution model.

The repository `modulink-ts` is a compile-time type layer over the external
`modulink-js` execution engine: every runtime behavior (chain execution order,
middleware positioning, the when/validate/retry/parallel combinators,
errorHandler) lives in the wrapped dependency, whose implementation is not part
of this repository's sources.  The specification (spec.md, sections 2-8)
reconstructs the core design implied by the type contracts; the repository's
test suite and example files exercise it.  The definitions below are therefore
a shallow embedding of that reconstructed engine, modelled from the spec's
words, against which the spec's testable properties are settled.

Modelling conventions:
- A JavaScript object (the Context) is an association list from string keys to
  values with no duplicate keys; `{ ...ctx, k: v }` keeps an existing key in
  place with its value replaced, and appends a fresh key at the end.
- A promise that resolves is a plain value; a thrown error is the `.error`
  branch of `Except ErrorRecord _`.  The chain engine is a total function
  `Ctx → Ctx` (its promise always resolves), capturing failures as data in
  the context's `error` field.
- Time (middleware timing telemetry, retry delays) is not modelled; the
  claims under verification do not depend on wall-clock values.
-/

set_option autoImplicit false

namespace ModuLink

/-- Modelled from the spec: the error record `{message, name, stack?}` produced
whenever a Link throws (spec.md section 3), stored into the Context's `error`
field.  The runtime producer lives in modulink-js, outside this repository. -/
structure ErrorRecord where
  message : String
  name : String
  stack : Option String
  deriving DecidableEq, Repr

/-- Modelled from the spec: the `retryInfo` reserved Context field
`(attempts, success flag, max retries)` (spec.md section 3), recorded by the
`retry` combinator of modulink-js, whose implementation is outside this
repository. -/
structure RetryInfo where
  attempts : Nat
  successful : Bool
  maxRetries : Nat
  deriving DecidableEq, Repr

/-- Modelled from the spec: the values a Context maps its string keys to.  The
spec's Context is an open-ended mapping to arbitrary JavaScript values; the
claims under verification only require numbers, strings, booleans and lists of
strings (the `order` field of the onion-ordering scenario). -/
inductive Value where
  | num : Int → Value
  | str : String → Value
  | bool : Bool → Value
  | strList : List String → Value
  deriving DecidableEq, Repr

/-- Modelled from the spec: the Context (spec.md section 3): a mapping from
string keys to values, with the reserved optionally-present fields `error` and
`retryInfo` carried separately.  The concrete Context values are produced by
modulink-js factories outside this repository. -/
structure Ctx where
  fields : List (String × Value)
  error : Option ErrorRecord
  retryInfo : Option RetryInfo
  deriving DecidableEq, Repr

/-- Modelled from the spec: first-match lookup of a key in a Context's field
list, i.e. JavaScript property access `ctx[k]`. -/
def lookupField : List (String × Value) → String → Option Value
  | [], _ => none
  | (k2, v) :: rest, k => if k2 = k then some v else lookupField rest k

/-- Modelled from the spec: JavaScript object spread update
`{ ...fields, k: v }`: an existing key keeps its position and gets the new
value; a fresh key is appended at the end. -/
def setField : List (String × Value) → String → Value → List (String × Value)
  | [], k, v => [(k, v)]
  | (k2, v2) :: rest, k, v =>
      if k2 = k then (k2, v) :: rest else (k2, v2) :: setField rest k v

/-- Read a field of a Context. -/
def Ctx.get (c : Ctx) (k : String) : Option Value :=
  lookupField c.fields k

/-- Update one field of a Context, spread-style (`{ ...ctx, k: v }`). -/
def Ctx.set (c : Ctx) (k : String) (v : Value) : Ctx :=
  { c with fields := setField c.fields k v }

/-- Populate the reserved `error` field of a Context. -/
def Ctx.setError (c : Ctx) (e : ErrorRecord) : Ctx :=
  { c with error := some e }

/-- Populate the reserved `retryInfo` field of a Context. -/
def Ctx.setRetryInfo (c : Ctx) (r : RetryInfo) : Ctx :=
  { c with retryInfo := some r }

/-- Modelled from the spec: a Link is a unary function over Context
(spec.md section 3); it may throw (the `.error` branch).  Asynchronous links
are collapsed to their settled value, since the chain awaits each link before
proceeding (spec.md section 5). -/
def Link : Type :=
  Ctx → Except ErrorRecord Ctx

/-- Modelled from the spec: Middleware is structurally identical to Link,
distinguished only by registration position (spec.md section 3). -/
def Middleware : Type :=
  Ctx → Except ErrorRecord Ctx

/-- Modelled from the spec: a Chain owns an ordered sequence of Links fixed at
construction, plus middleware lists for the `input`, `output` and `global`
positions (spec.md section 3).  The executable chain object of modulink-js is
outside this repository; this configuration record together with `runChain`
models it. -/
structure ChainCfg where
  links : List Link
  inputMw : List Middleware
  outputMw : List Middleware
  globalMw : List Middleware

/-- Modelled from the spec: `chain(...links)` constructs a Chain over the given
links with empty middleware lists (spec.md section 4.1); the runtime
constructor is modulink-js's `chain`, re-exported by src/index.ts. -/
def chainOf (ls : List Link) : ChainCfg :=
  { links := ls, inputMw := [], outputMw := [], globalMw := [] }

/-- Modelled from the spec: `onInput(...)` appends to the input-positioned
middleware list and returns the chain for further chaining
(spec.md section 4.1, fluent configuration). -/
def ChainCfg.onInput (cfg : ChainCfg) (ms : List Middleware) : ChainCfg :=
  { cfg with inputMw := cfg.inputMw ++ ms }

/-- Modelled from the spec: `onOutput(...)` appends to the output-positioned
middleware list and returns the chain for further chaining
(spec.md section 4.1, fluent configuration). -/
def ChainCfg.onOutput (cfg : ChainCfg) (ms : List Middleware) : ChainCfg :=
  { cfg with outputMw := cfg.outputMw ++ ms }

/-- Modelled from the spec: `use(...)` appends global middleware, which runs
once after the last Link or after a short-circuit (spec.md section 4.1,
steps 1/3 and the fluent-configuration rule). -/
def ChainCfg.use (cfg : ChainCfg) (ms : List Middleware) : ChainCfg :=
  { cfg with globalMw := cfg.globalMw ++ ms }

/-- Modelled from the spec: `coreExecution` is a Chain equivalent in Link
sequence but with empty middleware lists (spec.md sections 3 and 4.1); the
runtime property lives on modulink-js's chain object, outside this
repository. -/
def ChainCfg.coreExecution (cfg : ChainCfg) : ChainCfg :=
  chainOf cfg.links

/-- Modelled from the spec: run a middleware list sequentially in registration
order, propagating a thrown error (spec.md section 4.1, steps 2a/2c). -/
def runMws : List Middleware → Ctx → Except ErrorRecord Ctx
  | [], c => .ok c
  | m :: ms, c =>
      match m c with
      | .ok c2 => runMws ms c2
      | .error e => .error e

/-- Modelled from the spec: the per-link execution loop of the chain engine
(spec.md section 4.1, step 2).  For each link: the input middleware run in
registration order, then the link, then the output middleware.  If the link
throws, the error is captured into `ctx.error` on the context the link
received, the output middleware for that step do not run, and no further links
run (fail-fast, spec.md section 7).  A link that returns an error-bearing
context (a data-carried failure, e.g. retry exhaustion) short-circuits the
same way. -/
def runLinks (ins outs : List Middleware) : List Link → Ctx → Ctx
  | [], c => c
  | l :: rest, c =>
      match runMws ins c with
      | .error e => c.setError e
      | .ok c1 =>
          match l c1 with
          | .error e => c1.setError e
          | .ok c2 =>
              if c2.error.isSome then c2
              else
                match runMws outs c2 with
                | .error e => c2.setError e
                | .ok c3 => runLinks ins outs rest c3

/-- Modelled from the spec: chain invocation (spec.md section 4.1).  The link
loop runs, then the global middleware run once after the last link or after a
short-circuit; the returned promise always resolves (failures are data in
`ctx.error`, spec.md section 7), hence the total type `Ctx → Ctx`.  The
runtime engine is modulink-js's chain executor, outside this repository. -/
def runChain (cfg : ChainCfg) (c : Ctx) : Ctx :=
  let c1 := runLinks cfg.inputMw cfg.outputMw cfg.links c
  match runMws cfg.globalMw c1 with
  | .ok c2 => c2
  | .error e => c1.setError e

/-- Modelled from the spec: the `when(predicate, link)` combinator
(spec.md section 4.2): evaluates `predicate(ctx)` synchronously; if true,
returns `link(ctx)`; if false, returns `ctx` unchanged.  The implementation is
modulink-js's `when`, re-exported by src/index.ts. -/
def when (pred : Ctx → Bool) (l : Link) : Link := fun c =>
  if pred c then l c else .ok c

/-- Modelled from the spec: the result type of a validator passed to the
`validate` combinator: a JavaScript `boolean | string` union
(spec.md section 4.2). -/
inductive ValidationResult where
  | asBool : Bool → ValidationResult
  | msg : String → ValidationResult
  deriving DecidableEq, Repr

/-- Modelled from the spec: the error raised when a validator returns a
descriptive string, carrying that string as the failure message
(spec.md section 7, validation failure). -/
def validationMessageError (s : String) : ErrorRecord :=
  { message := s, name := "ValidationError", stack := none }

/-- Modelled from the spec: the generic validation error raised when a
validator returns `false` (spec.md section 4.2). -/
def genericValidationError : ErrorRecord :=
  { message := "Validation failed", name := "ValidationError", stack := none }

/-- Modelled from the spec: the `validate(validator, link)` combinator
(spec.md section 4.2): runs `validator(ctx)`; on `true` proceeds to
`link(ctx)`; on a string raises an error with that string as message; on
`false` raises a generic validation error.  The implementation is
modulink-js's `validate`, re-exported by src/index.ts. -/
def validate (v : Ctx → ValidationResult) (l : Link) : Link := fun c =>
  match v c with
  | .asBool true => l c
  | .asBool false => .error genericValidationError
  | .msg s => .error (validationMessageError s)

/-- Modelled from the spec: the attempt loop of the `retry` combinator
(spec.md sections 4.2 and 7).  The retried link is attempt-indexed
(`Nat → Ctx → _`) to model the closure state a JavaScript flaky link keeps
across attempts (src/src/examples/utilities.ts, `flakyProcess`); a stateless
link ignores the index.  `attempt` is the 1-based number of the attempt being
made and `remaining` the number of attempts still allowed.  On success the
attempt count is recorded into `retryInfo`; when all attempts are exhausted
the last error is recorded as a data-carried failure together with
`retryInfo` (`attempts = maxRetries`, `successful = false`). -/
def retryGo (l : Nat → Ctx → Except ErrorRecord Ctx) (mx : Nat) (c : Ctx) :
    Nat → Nat → Ctx
  | _, 0 => c.setError { message := "retry: no attempts allowed", name := "RetryError", stack := none }
  | attempt, remaining + 1 =>
      match l attempt c with
      | .ok c2 => c2.setRetryInfo { attempts := attempt, successful := true, maxRetries := mx }
      | .error e =>
          if remaining = 0 then
            (c.setRetryInfo { attempts := attempt, successful := false, maxRetries := mx }).setError e
          else retryGo l mx c (attempt + 1) remaining

/-- Modelled from the spec: the `retry(link, maxRetries, delayMs)` combinator
(spec.md section 4.2): invokes the link, retrying on raised errors up to
`maxRetries` total attempts, recording the attempt count into `retryInfo`.
The fixed inter-attempt delay `delayMs` has no observable effect in this
timeless model.  The implementation is modulink-js's `retry`, re-exported by
src/index.ts. -/
def retry (l : Nat → Ctx → Except ErrorRecord Ctx) (maxRetries : Nat) (delayMs : Nat) : Link :=
  fun c => .ok (retryGo l maxRetries c 1 maxRetries)

/-- Modelled from the spec: merging one result context's fields into an
accumulator, key by key in field order, for the `parallel` combinator's
result merge (spec.md section 4.2). -/
def mergeFields (a : List (String × Value)) : List (String × Value) → List (String × Value)
  | [] => a
  | (k, v) :: rest => mergeFields (setField a k v) rest

/-- Modelled from the spec: merging one parallel branch's resulting Context
into the accumulated output Context; the later context's fields and present
reserved fields win (the deterministic last-listed-wins tie-break the spec
asks implementers to pick, spec.md section 4.2). -/
def mergeCtx (a b : Ctx) : Ctx :=
  { fields := mergeFields a.fields b.fields,
    error := match b.error with
      | some e => some e
      | none => a.error,
    retryInfo := match b.retryInfo with
      | some r => some r
      | none => a.retryInfo }

/-- Modelled from the spec: running every parallel branch against the same
input Context and collecting all results; if any branch raises, the combined
operation fails (spec.md sections 4.2 and 7, aggregate failure). -/
def runAll (ls : List Link) (c : Ctx) : Except ErrorRecord (List Ctx) :=
  match ls with
  | [] => .ok []
  | l :: rest =>
      match l c, runAll rest c with
      | .error e, _ => .error e
      | .ok r, .ok rs => .ok (r :: rs)
      | .ok _, .error e => .error e

/-- Modelled from the spec: the `parallel(...links)` combinator
(spec.md section 4.2): invokes all given links against the same input
Context, waits for all to settle, and merges each link's resulting fields
into a single output Context in link-list order.  The implementation is
modulink-js's `parallel`, re-exported by src/index.ts. -/
def parallel (ls : List Link) : Link := fun c =>
  match runAll ls c with
  | .error e => .error e
  | .ok rs => .ok (rs.foldl mergeCtx c)

/-- Modelled from the spec: the `errorHandler(handler)` combinator
(spec.md section 4.2): positioned as middleware; inspects `ctx.error`; if
present, invokes `handler(error, ctx)` to produce a recovery Context;
otherwise passes the Context through unchanged.  The implementation is
modulink-js's `errorHandler`, re-exported by src/index.ts. -/
def errorHandler (handler : ErrorRecord → Ctx → Ctx) : Middleware := fun c =>
  match c.error with
  | some e => .ok (handler e c)
  | none => .ok c

/-! Concrete links, middleware and contexts mirroring the spec's scenarios and
the repository's test suite, used to instantiate the theorems below. -/

/-- A context with the given fields and no reserved fields set. -/
def mkCtx (fs : List (String × Value)) : Ctx :=
  { fields := fs, error := none, retryInfo := none }

/-- Numeric read of a field, defaulting to 0 (JavaScript `ctx.value || 0`). -/
def numOf (c : Ctx) (k : String) : Int :=
  match c.get k with
  | some (.num n) => n
  | _ => 0

/-- The `add1` link of the composition scenario: sets `value = value + 1`. -/
def add1 : Link := fun c =>
  .ok (c.set "value" (.num (numOf c "value" + 1)))

/-- The `double` link of the composition scenario: sets `value = value * 2`. -/
def double : Link := fun c =>
  .ok (c.set "value" (.num (numOf c "value" * 2)))

/-- Append a name to the `order` field (the onion-ordering scenario). -/
def appendOrder (tag : String) (c : Ctx) : Ctx :=
  match c.get "order" with
  | some (.strList xs) => c.set "order" (.strList (xs ++ [tag]))
  | _ => c.set "order" (.strList [tag])

/-- Middleware (or link) that records its name into the `order` field. -/
def orderMw (tag : String) : Middleware := fun c =>
  .ok (appendOrder tag c)

/-- The error thrown by the failing link of the error scenario. -/
def boomErr : ErrorRecord :=
  { message := "boom", name := "Error", stack := none }

/-- A link that throws `Error("boom")`. -/
def boomLink : Link := fun _ =>
  .error boomErr

/-- A link placed after the failing one; it must never contribute its field. -/
def afterLink : Link := fun c =>
  .ok (c.set "afterField" (.bool true))

/-- A link that adds one fixed field to the context. -/
def setLink (k : String) (v : Value) : Link := fun c =>
  .ok (c.set k v)

/-- Predicate reading the boolean `shouldExecute` field (the `when` test). -/
def flagPred (c : Ctx) : Bool :=
  match c.get "shouldExecute" with
  | some (.bool b) => b
  | _ => false

/-- The conditional link of the `when` test: marks the context executed. -/
def executeLink : Link := fun c =>
  .ok (c.set "executed" (.bool true))

/-- The error thrown by a failing flaky attempt. -/
def attemptErr : ErrorRecord :=
  { message := "Attempt failed", name := "Error", stack := none }

/-- An attempt-indexed flaky link: fails on every attempt before
`succeedAt`, then succeeds, mirroring `flakyProcess` in
src/src/examples/utilities.ts. -/
def flakyAt (succeedAt : Nat) : Nat → Ctx → Except ErrorRecord Ctx :=
  fun i c =>
    if i < succeedAt then .error attemptErr
    else .ok (c.set "flakyResult" (.str "Finally succeeded!"))

/-- The recovery handler of the error-handling test: marks the error
handled without clearing `ctx.error`. -/
def recoverHandler : ErrorRecord → Ctx → Ctx := fun _ c =>
  c.set "errorHandled" (.bool true)

/-- The validator of the validation example: rejects negative values with a
descriptive message. -/
def positiveValidator (c : Ctx) : ValidationResult :=
  if numOf c "value" < 0 then .msg "Value must be positive" else .asBool true

/-! Theorems settling the spec's claims against the modelled engine. -/

/-- C8: for every Context `c`, a chain over the empty link sequence satisfies
the identity law: `chain()(c)` resolves to a Context structurally equal
to `c`. -/
theorem chain_empty_identity (c : Ctx) : runChain (chainOf []) c = c := rfl

/-- C1: when the first link of `chain(failingLink, afterLink)` throws an error
`e` during execution, the chain resolves (it is a total function into `Ctx`)
to the input Context with only its `error` field populated by `e`: the
remaining link is skipped, and the result's fields are exactly the input's, so
no field of the failing link's normal result nor of any later link is
present. -/
theorem chain_link_failure_captured (l1 l2 : Link) (c : Ctx) (e : ErrorRecord)
    (h1 : l1 c = .error e) :
    runChain (chainOf [l1, l2]) c = c.setError e ∧
    (runChain (chainOf [l1, l2]) c).error = some e ∧
    (runChain (chainOf [l1, l2]) c).fields = c.fields := by
  have hrun : runChain (chainOf [l1, l2]) c = c.setError e := by
    simp [runChain, chainOf, runLinks, runMws, h1]
  exact ⟨hrun, by rw [hrun]; rfl, by rw [hrun]; rfl⟩

/-- Witness for C1: a link throwing `Error("boom")` ahead of `afterLink`
yields a result whose `error.message` is `"boom"`, whose fields are the
input's, and which carries no `afterField`. -/
theorem chain_link_failure_captured_witness :
    boomLink (mkCtx [("seed", .num 1)]) = .error boomErr ∧
    (runChain (chainOf [boomLink, afterLink]) (mkCtx [("seed", .num 1)])).error = some boomErr ∧
    (runChain (chainOf [boomLink, afterLink]) (mkCtx [("seed", .num 1)])).get "afterField" = none := by
  have h := chain_link_failure_captured boomLink afterLink (mkCtx [("seed", .num 1)]) boomErr rfl
  exact ⟨rfl, h.2.1, by rw [h.1]; decide⟩

/-- C2: with no middleware attached, `chain(l1, l2)(c)` resolves to
`l2(l1(c))`: if `l1 c` succeeds with `c1` (carrying no error) and `l2 c1`
succeeds with `c2`, the chain resolves to `c2`. -/
theorem chain_two_links_compose (l1 l2 : Link) (c c1 c2 : Ctx)
    (h1 : l1 c = .ok c1) (he : c1.error = none) (h2 : l2 c1 = .ok c2) :
    runChain (chainOf [l1, l2]) c = c2 := by
  simp [runChain, chainOf, runLinks, runMws, h1, he, h2]

/-- Witness for C2: input `{value: 5}` through `add1` then `double` yields a
Context whose `value` is 12. -/
theorem chain_two_links_compose_witness :
    add1 (mkCtx [("value", .num 5)]) = .ok (mkCtx [("value", .num 6)]) ∧
    double (mkCtx [("value", .num 6)]) = .ok (mkCtx [("value", .num 12)]) ∧
    runChain (chainOf [add1, double]) (mkCtx [("value", .num 5)]) = mkCtx [("value", .num 12)] ∧
    (runChain (chainOf [add1, double]) (mkCtx [("value", .num 5)])).get "value" = some (.num 12) := by
    have h := chain_two_links_compose add1 double
      (mkCtx [("value", .num 5)]) (mkCtx [("value", .num 6)]) (mkCtx [("value", .num 12)])
      rfl rfl rfl
    exact ⟨rfl, rfl, h, by rw [h]; decide⟩

/-- C4: `when(pred, l)(c)` equals `l(c)` whenever `pred(c) = true`, and equals
`c` unchanged (no error recorded, no field added) whenever
`pred(c) = false`. -/
theorem when_conditional_execution (pred : Ctx → Bool) (l : Link) (c : Ctx) :
    (pred c = true → when pred l c = l c) ∧
    (pred c = false → when pred l c = .ok c) := by
  constructor <;> intro h <;> simp [when, h]

/-- Witness for C4: with the `shouldExecute` predicate of the test suite, the
conditional link runs exactly when the flag is true, and the false case
returns the input Context unchanged. -/
theorem when_conditional_execution_witness :
    flagPred (mkCtx [("shouldExecute", .bool true)]) = true ∧
    when flagPred executeLink (mkCtx [("shouldExecute", .bool true)])
      = executeLink (mkCtx [("shouldExecute", .bool true)]) ∧
    flagPred (mkCtx [("shouldExecute", .bool false)]) = false ∧
    when flagPred executeLink (mkCtx [("shouldExecute", .bool false)])
      = .ok (mkCtx [("shouldExecute", .bool false)]) := by
  refine ⟨rfl, ?_, rfl, ?_⟩
  · exact (when_conditional_execution flagPred executeLink
      (mkCtx [("shouldExecute", .bool true)])).1 rfl
  · exact (when_conditional_execution flagPred executeLink
      (mkCtx [("shouldExecute", .bool false)])).2 rfl

/-- C7: `validate(v, l)(c)` proceeds to `l(c)` when the validator returns
true; when it returns a string `s` it raises an error with `s` as the failure
message, and when it returns false it raises the generic validation error —
in both failure cases the raised error is surfaced as a Link failure, i.e. a
chain around the combinator resolves to the input Context with `error`
populated accordingly. -/
theorem validate_gates_link (v : Ctx → ValidationResult) (l : Link) (c : Ctx) :
    (v c = .asBool true → validate v l c = l c) ∧
    (∀ s, v c = .msg s →
      validate v l c = .error (validationMessageError s) ∧
      runChain (chainOf [validate v l]) c = c.setError (validationMessageError s)) ∧
    (v c = .asBool false →
      validate v l c = .error genericValidationError ∧
      runChain (chainOf [validate v l]) c = c.setError genericValidationError) := by
  refine ⟨fun h => by simp [validate, h], fun s h => ?_, fun h => ?_⟩
  · have hv : validate v l c = .error (validationMessageError s) := by simp [validate, h]
    exact ⟨hv, by simp [runChain, chainOf, runLinks, runMws, hv]⟩
  · have hv : validate v l c = .error genericValidationError := by simp [validate, h]
    exact ⟨hv, by simp [runChain, chainOf, runLinks, runMws, hv]⟩

/-- Witness for C7: the positive-value validator lets `{value: 5}` through to
the link, and fails `{value: -10}` with the message "Value must be positive"
recorded as a Link failure. -/
theorem validate_gates_link_witness :
    positiveValidator (mkCtx [("value", .num 5)]) = .asBool true ∧
    validate positiveValidator executeLink (mkCtx [("value", .num 5)])
      = executeLink (mkCtx [("value", .num 5)]) ∧
    positiveValidator (mkCtx [("value", .num (-10))]) = .msg "Value must be positive" ∧
    (runChain (chainOf [validate positiveValidator executeLink]) (mkCtx [("value", .num (-10))])).error
      = some (validationMessageError "Value must be positive") := by
  refine ⟨rfl, ?_, rfl, ?_⟩
  · exact (validate_gates_link positiveValidator executeLink
      (mkCtx [("value", .num 5)])).1 rfl
  · have h := ((validate_gates_link positiveValidator executeLink
      (mkCtx [("value", .num (-10))])).2.1 "Value must be positive" (by decide)).2
    rw [h]; rfl

/-- C3: for a chain built as `chain(l).onInput(ins).onOutput(outs)`, each
invocation runs the input-positioned middleware before the link and the
output-positioned middleware after the link, each list in registration order
(the order in which `runMws` traverses a list): if the input middleware turn
`c` into `a`, the link turns `a` into `b`, and the output middleware turn `b`
into `d`, the chain resolves to `d`. -/
theorem chain_middleware_positioning (ins outs : List Middleware) (l : Link) (c a b d : Ctx)
    (hin : runMws ins c = .ok a) (hl : l a = .ok b) (hb : b.error = none)
    (hout : runMws outs b = .ok d) :
    runChain (((chainOf [l]).onInput ins).onOutput outs) c = d := by
  simp [runChain, chainOf, ChainCfg.onInput, ChainCfg.onOutput, runLinks, runMws,
    hin, hl, hb, hout]

/-- Witness for C3: `chain(mainLink).onInput(inputMw).onOutput(outputMw)`
invoked on `{order: []}`, where each middleware and the link append their own
name to `order`, yields `order = ["input", "link", "output"]`. -/
theorem chain_middleware_positioning_witness :
    runMws [orderMw "input"] (mkCtx [("order", .strList [])])
      = .ok (mkCtx [("order", .strList ["input"])]) ∧
    (runChain (((chainOf [orderMw "link"]).onInput [orderMw "input"]).onOutput [orderMw "output"])
        (mkCtx [("order", .strList [])])).get "order"
      = some (.strList ["input", "link", "output"]) := by
  have h := chain_middleware_positioning [orderMw "input"] [orderMw "output"] (orderMw "link")
    (mkCtx [("order", .strList [])])
    (mkCtx [("order", .strList ["input"])])
    (mkCtx [("order", .strList ["input", "link"])])
    (mkCtx [("order", .strList ["input", "link", "output"])])
    rfl rfl rfl rfl
  exact ⟨rfl, by rw [h]; decide⟩

/-- C9: for a chain built from links `ls` with any middleware attached through
the fluent API, `coreExecution` is a Chain over the same link sequence with
empty middleware lists, and its execution on every Context equals the
execution of a plain `chain(ls)` with no middleware attached. -/
theorem coreExecution_strips_middleware (ls : List Link) (ins outs gs : List Middleware) (c : Ctx) :
    ((((chainOf ls).use gs).onInput ins).onOutput outs).coreExecution.links = ls ∧
    ((((chainOf ls).use gs).onInput ins).onOutput outs).coreExecution.inputMw = [] ∧
    ((((chainOf ls).use gs).onInput ins).onOutput outs).coreExecution.outputMw = [] ∧
    ((((chainOf ls).use gs).onInput ins).onOutput outs).coreExecution.globalMw = [] ∧
    runChain ((((chainOf ls).use gs).onInput ins).onOutput outs).coreExecution c
      = runChain (chainOf ls) c := by
  exact ⟨rfl, rfl, rfl, rfl, rfl⟩

/-- C10: when a chain has an `errorHandler` middleware attached via `use()`
and its link throws `e`, the chain resolves to the handler applied to the
error-bearing Context: the handler definitely runs after the link failure,
receiving both `e` and the Context whose `error` field is populated
with `e`. -/
theorem errorHandler_runs_after_failure (l : Link) (h : ErrorRecord → Ctx → Ctx)
    (c : Ctx) (e : ErrorRecord) (hl : l c = .error e) :
    runChain ((chainOf [l]).use [errorHandler h]) c = h e (c.setError e) := by
  simp [runChain, chainOf, ChainCfg.use, runLinks, runMws, hl, errorHandler, Ctx.setError]

/-- Witness for C10: with the test suite's recovery handler (which spreads the
incoming Context), the result of the failing chain still has `error`
populated and carries the handler's `errorHandled` recovery field. -/
theorem errorHandler_runs_after_failure_witness :
    boomLink (mkCtx []) = .error boomErr ∧
    (runChain ((chainOf [boomLink]).use [errorHandler recoverHandler]) (mkCtx [])).error
      = some boomErr ∧
    (runChain ((chainOf [boomLink]).use [errorHandler recoverHandler]) (mkCtx [])).get "errorHandled"
      = some (.bool true) := by
  have h := errorHandler_runs_after_failure boomLink recoverHandler (mkCtx []) boomErr rfl
  exact ⟨rfl, by rw [h]; rfl, by rw [h]; decide⟩

/-! Association-list lemmas used for the parallel-merge claim. -/

theorem lookupField_setField_self (fs : List (String × Value)) (k : String) (v : Value) :
    lookupField (setField fs k v) k = some v := by
  induction fs with
  | nil => simp [setField, lookupField]
  | cons p rest ih =>
    obtain ⟨k2, v2⟩ := p
    by_cases h : k2 = k
    · subst h
      simp [setField, lookupField]
    · simp [setField, lookupField, h, ih]

theorem lookupField_setField_ne (fs : List (String × Value)) (k k2 : String) (v : Value)
    (h : k2 ≠ k) : lookupField (setField fs k v) k2 = lookupField fs k2 := by
  induction fs with
  | nil => simp [setField, lookupField, Ne.symm h]
  | cons p rest ih =>
    obtain ⟨k3, v3⟩ := p
    by_cases h3 : k3 = k
    · subst h3
      simp [setField, lookupField, Ne.symm h]
    · simp [setField, lookupField, h3, ih]

theorem lookupField_eq_none_iff (fs : List (String × Value)) (k : String) :
    lookupField fs k = none ↔ k ∉ fs.map Prod.fst := by
  induction fs with
  | nil => simp [lookupField]
  | cons p rest ih =>
    obtain ⟨k2, v2⟩ := p
    by_cases h : k2 = k
    · subst h
      simp [lookupField]
    · simp [lookupField, h, ih, Ne.symm h]

theorem keys_setField_fresh (fs : List (String × Value)) (k : String) (v : Value)
    (h : k ∉ fs.map Prod.fst) :
    (setField fs k v).map Prod.fst = fs.map Prod.fst ++ [k] := by
  induction fs with
  | nil => simp [setField]
  | cons p rest ih =>
    obtain ⟨k2, v2⟩ := p
    simp only [List.map_cons, List.mem_cons] at h
    push_neg at h
    simp [setField, Ne.symm h.1, ih h.2]

theorem lookupField_mergeFields_of_none (fs : List (String × Value)) :
    ∀ (acc : List (String × Value)) (k : String), lookupField fs k = none →
      lookupField (mergeFields acc fs) k = lookupField acc k := by
  induction fs with
  | nil => intro acc k _; rfl
  | cons p rest ih =>
    intro acc k hk
    obtain ⟨k2, v2⟩ := p
    have h2 : k2 ≠ k := by
      intro h
      subst h
      simp [lookupField] at hk
    rw [show mergeFields acc ((k2, v2) :: rest) = mergeFields (setField acc k2 v2) rest from rfl]
    rw [ih (setField acc k2 v2) k (by simpa [lookupField, h2] using hk)]
    exact lookupField_setField_ne acc k2 k v2 (Ne.symm h2)

theorem lookupField_mergeFields_of_some (fs : List (String × Value)) :
    ∀ (acc : List (String × Value)) (k : String) (v : Value),
      (fs.map Prod.fst).Nodup → lookupField fs k = some v →
      lookupField (mergeFields acc fs) k = some v := by
  induction fs with
  | nil => intro acc k v _ hk; simp [lookupField] at hk
  | cons p rest ih =>
    intro acc k v hnd hk
    obtain ⟨k2, v2⟩ := p
    simp only [List.map_cons, List.nodup_cons] at hnd
    rw [show mergeFields acc ((k2, v2) :: rest) = mergeFields (setField acc k2 v2) rest from rfl]
    by_cases h : k2 = k
    · subst h
      have hv : v2 = v := by simpa [lookupField] using hk
      subst hv
      rw [lookupField_mergeFields_of_none rest (setField acc k2 v2) k2
        ((lookupField_eq_none_iff rest k2).2 hnd.1)]
      exact lookupField_setField_self acc k2 v2
    · exact ih (setField acc k2 v2) k v hnd.2 (by simpa [lookupField, h] using hk)

/-! Retry-loop lemmas. -/

theorem retryGo_succeeds (l : Nat → Ctx → Except ErrorRecord Ctx) (mx : Nat) (c : Ctx) :
    ∀ (k a rem : Nat) (c2 : Ctx),
      (∀ i, a ≤ i → i < a + k → ∃ e, l i c = .error e) →
      l (a + k) c = .ok c2 → k < rem →
      retryGo l mx c a rem
        = c2.setRetryInfo { attempts := a + k, successful := true, maxRetries := mx } := by
  intro k
  induction k with
  | zero =>
    intro a rem c2 _ hok hlt
    obtain ⟨r, rfl⟩ : ∃ r, rem = r + 1 := ⟨rem - 1, by omega⟩
    rw [Nat.add_zero] at hok
    simp [retryGo, hok]
  | succ k ih =>
    intro a rem c2 herr hok hlt
    obtain ⟨r, rfl⟩ : ∃ r, rem = r + 1 := ⟨rem - 1, by omega⟩
    obtain ⟨e, he⟩ := herr a (Nat.le_refl a) (by omega)
    have hr : ¬r = 0 := by omega
    have harith : a + (k + 1) = a + 1 + k := by omega
    rw [show retryGo l mx c a (r + 1)
        = (match l a c with
          | .ok c2 => c2.setRetryInfo { attempts := a, successful := true, maxRetries := mx }
          | .error e =>
              if r = 0 then
                (c.setRetryInfo { attempts := a, successful := false, maxRetries := mx }).setError e
              else retryGo l mx c (a + 1) r) from rfl, he]
    simp only [hr, if_false]
    rw [harith] at hok ⊢
    exact ih (a + 1) r c2 (fun i h1 h2 => herr i (by omega) (by omega)) hok (by omega)

theorem retryGo_exhausts (l : Nat → Ctx → Except ErrorRecord Ctx) (mx : Nat) (c : Ctx) :
    ∀ (rem a : Nat) (e : ErrorRecord),
      l (a + rem) c = .error e →
      (∀ i, a ≤ i → i ≤ a + rem → ∃ e2, l i c = .error e2) →
      retryGo l mx c a (rem + 1)
        = (c.setRetryInfo { attempts := a + rem, successful := false, maxRetries := mx }).setError e := by
  intro rem
  induction rem with
  | zero =>
    intro a e he _
    rw [Nat.add_zero] at he
    simp [retryGo, he]
  | succ r ih =>
    intro a e he hall
    obtain ⟨e0, he0⟩ := hall a (Nat.le_refl a) (by omega)
    have harith : a + (r + 1) = a + 1 + r := by omega
    rw [show retryGo l mx c a (r + 1 + 1)
        = (match l a c with
          | .ok c2 => c2.setRetryInfo { attempts := a, successful := true, maxRetries := mx }
          | .error e =>
              if r + 1 = 0 then
                (c.setRetryInfo { attempts := a, successful := false, maxRetries := mx }).setError e
              else retryGo l mx c (a + 1) (r + 1)) from rfl, he0]
    simp only [Nat.succ_ne_zero, if_false]
    rw [harith] at he ⊢
    exact ih (a + 1) e he (fun i h1 h2 => hall i (by omega) (by omega))

/-- C5: for `retry(l, n, d)` with total attempt budget `n` (not extra
retries): if the link fails on the first `k < n` attempts and succeeds on
attempt `k + 1`, the result resolves with `retryInfo.attempts = k + 1`
(successful); if the link fails on all `n` attempts, the chain ends in a
failure state — an error-bearing Context carrying the last error and
`retryInfo.attempts = n`, `retryInfo.successful = false` — and a chain
containing the retry link short-circuits there, skipping later links. -/
theorem retry_attempt_accounting (l : Nat → Ctx → Except ErrorRecord Ctx)
    (l2 : Link) (n d k : Nat) (c c2 : Ctx) (e : ErrorRecord) :
    (k < n → (∀ i, 1 ≤ i → i ≤ k → ∃ e2, l i c = .error e2) → l (k + 1) c = .ok c2 →
      retry l n d c
        = .ok (c2.setRetryInfo { attempts := k + 1, successful := true, maxRetries := n })) ∧
    (1 ≤ n → (∀ i, 1 ≤ i → i ≤ n → ∃ e2, l i c = .error e2) → l n c = .error e →
      retry l n d c
        = .ok ((c.setRetryInfo { attempts := n, successful := false, maxRetries := n }).setError e) ∧
      runChain (chainOf [retry l n d, l2]) c
        = (c.setRetryInfo { attempts := n, successful := false, maxRetries := n }).setError e) := by
  constructor
  · intro hk hfail hok
    have hok2 : l (1 + k) c = .ok c2 := by rw [Nat.add_comm]; exact hok
    have h := retryGo_succeeds l n c k 1 n c2
      (fun i h1 h2 => hfail i h1 (by omega)) hok2 hk
    simp only [retry]
    rw [h, Nat.add_comm 1 k]
  · intro hn hfail hlast
    have hn2 : 1 + (n - 1) = n := by omega
    have hlast2 : l (1 + (n - 1)) c = .error e := by rw [hn2]; exact hlast
    have h := retryGo_exhausts l n c (n - 1) 1 e hlast2
      (fun i h1 h2 => hfail i h1 (by omega))
    rw [hn2] at h
    rw [show n - 1 + 1 = n from by omega] at h
    have hr : retry l n d c
        = .ok ((c.setRetryInfo { attempts := n, successful := false, maxRetries := n }).setError e) := by
      simp only [retry]
      rw [h]
    refine ⟨hr, ?_⟩
    simp [runChain, chainOf, runLinks, runMws, hr, Ctx.setError, Ctx.setRetryInfo]

/-- Witness for C5: the flaky link that succeeds on its third attempt,
retried with a budget of 3 attempts and 100ms delay, resolves with
`retryInfo.attempts = 3` (successful); the flaky link that would only succeed
on attempt 5 exhausts the budget of 3 and yields the failure state with
`retryInfo.attempts = 3`, `retryInfo.successful = false` and the last error
recorded. -/
theorem retry_attempt_accounting_witness :
    (2 : Nat) < 3 ∧
    flakyAt 3 3 (mkCtx []) = .ok (mkCtx [("flakyResult", .str "Finally succeeded!")]) ∧
    retry (flakyAt 3) 3 100 (mkCtx [])
      = .ok ((mkCtx [("flakyResult", .str "Finally succeeded!")]).setRetryInfo
          { attempts := 3, successful := true, maxRetries := 3 }) ∧
    retry (flakyAt 5) 3 100 (mkCtx [])
      = .ok (((mkCtx []).setRetryInfo
          { attempts := 3, successful := false, maxRetries := 3 }).setError attemptErr) := by
  refine ⟨by decide, rfl, ?_, ?_⟩
  · exact (retry_attempt_accounting (flakyAt 3) executeLink 3 100 2 (mkCtx [])
      (mkCtx [("flakyResult", .str "Finally succeeded!")]) attemptErr).1
      (by decide)
      (fun i h1 h2 => ⟨attemptErr, by interval_cases i <;> rfl⟩)
      rfl
  · exact ((retry_attempt_accounting (flakyAt 5) executeLink 3 100 2 (mkCtx [])
      (mkCtx []) attemptErr).2
      (by decide)
      (fun i h1 h2 => ⟨attemptErr, by interval_cases i <;> rfl⟩)
      rfl).1

/-! Lemmas for the parallel-merge claim. -/

theorem runAll_setLinks (c : Ctx) (ps : List (String × Value)) :
    runAll (ps.map fun q => setLink q.1 q.2) c = .ok (ps.map fun q => c.set q.1 q.2) := by
  induction ps with
  | nil => rfl
  | cons p rest ih => simp [runAll, setLink, ih]

theorem foldl_merge_lookup_preserved (c : Ctx) (k : String)
    (hk : lookupField c.fields k = none) :
    ∀ (qs : List (String × Value)) (acc : Ctx), (∀ q ∈ qs, q.1 ≠ k) →
      lookupField ((qs.foldl (fun a q => mergeCtx a (c.set q.1 q.2)) acc)).fields k
        = lookupField acc.fields k := by
  intro qs
  induction qs with
  | nil => intro acc _; rfl
  | cons q rest ih =>
    intro acc hq
    rw [List.foldl_cons]
    rw [ih (mergeCtx acc (c.set q.1 q.2)) (fun r hr => hq r (List.mem_cons_of_mem q hr))]
    have hnone : lookupField (setField c.fields q.1 q.2) k = none := by
      rw [lookupField_setField_ne c.fields q.1 k q.2
        (Ne.symm (hq q (List.mem_cons_self q rest)))]
      exact hk
    exact lookupField_mergeFields_of_none (setField c.fields q.1 q.2) acc.fields k hnone

/-- C6: for every list of links each adding a distinct fresh field,
`parallel(...links)(c)` invokes every link against the same input Context
`c` (by construction of `runAll`), waits for all of them, and resolves to a
single merged Context containing every link's added field.  The merge is the
deterministic fold of the model, independent of completion timing, which the
pure model does not represent. -/
theorem parallel_merges_all_fields (ps : List (String × Value)) (c : Ctx)
    (hnd : (ps.map Prod.fst).Nodup)
    (hc : (c.fields.map Prod.fst).Nodup)
    (hfresh : ∀ p ∈ ps, lookupField c.fields p.1 = none) :
    parallel (ps.map fun q => setLink q.1 q.2) c
      = .ok ((ps.map fun q => c.set q.1 q.2).foldl mergeCtx c) ∧
    ∀ p ∈ ps, ((ps.map fun q => c.set q.1 q.2).foldl mergeCtx c).get p.1 = some p.2 := by
  constructor
  · simp [parallel, runAll_setLinks]
  · intro p hp
    obtain ⟨l1, l2, rfl⟩ := List.append_of_mem hp
    show lookupField _ p.1 = some p.2
    rw [List.foldl_map, List.foldl_append, List.foldl_cons]
    have hp1fresh : p.1 ∉ c.fields.map Prod.fst :=
      (lookupField_eq_none_iff c.fields p.1).1 (hfresh p hp)
    have hnd2 : p.1 ∉ l2.map Prod.fst := by
      rw [List.map_append, List.map_cons] at hnd
      exact (List.nodup_cons.1 (List.nodup_append.1 hnd).2.1).1
    have hstep :
        lookupField (mergeCtx (l1.foldl (fun a q => mergeCtx a (c.set q.1 q.2)) c)
          (c.set p.1 p.2)).fields p.1 = some p.2 := by
      show lookupField (mergeFields _ (setField c.fields p.1 p.2)) p.1 = some p.2
      apply lookupField_mergeFields_of_some
      · rw [keys_setField_fresh c.fields p.1 p.2 hp1fresh, List.nodup_append]
        exact ⟨hc, List.nodup_singleton p.1, by simpa [List.disjoint_singleton] using hp1fresh⟩
      · exact lookupField_setField_self c.fields p.1 p.2
    rw [foldl_merge_lookup_preserved c p.1 (hfresh p hp) l2 _
      (fun q hq heq => hnd2 (heq ▸ List.mem_map_of_mem Prod.fst hq))]
    exact hstep

/-- Witness for C6: three links adding the distinct fields `resultA`,
`resultB` and `resultC` to `{value: 1}` produce, under `parallel`, a single
Context containing all three fields. -/
theorem parallel_merges_all_fields_witness :
    parallel ([("resultA", Value.str "A completed"), ("resultB", Value.str "B completed"),
        ("resultC", Value.str "C completed")].map fun q => setLink q.1 q.2)
      (mkCtx [("value", .num 1)])
      = .ok (([("resultA", Value.str "A completed"), ("resultB", Value.str "B completed"),
          ("resultC", Value.str "C completed")].map
            fun q => (mkCtx [("value", .num 1)]).set q.1 q.2).foldl mergeCtx
          (mkCtx [("value", .num 1)])) ∧
    (([("resultA", Value.str "A completed"), ("resultB", Value.str "B completed"),
        ("resultC", Value.str "C completed")].map
          fun q => (mkCtx [("value", .num 1)]).set q.1 q.2).foldl mergeCtx
        (mkCtx [("value", .num 1)])).get "resultA" = some (.str "A completed") ∧
    (([("resultA", Value.str "A completed"), ("resultB", Value.str "B completed"),
        ("resultC", Value.str "C completed")].map
          fun q => (mkCtx [("value", .num 1)]).set q.1 q.2).foldl mergeCtx
        (mkCtx [("value", .num 1)])).get "resultB" = some (.str "B completed") ∧
    (([("resultA", Value.str "A completed"), ("resultB", Value.str "B completed"),
        ("resultC", Value.str "C completed")].map
          fun q => (mkCtx [("value", .num 1)]).set q.1 q.2).foldl mergeCtx
        (mkCtx [("value", .num 1)])).get "resultC" = some (.str "C completed") := by
  have h := parallel_merges_all_fields
    [("resultA", Value.str "A completed"), ("resultB", Value.str "B completed"),
      ("resultC", Value.str "C completed")]
    (mkCtx [("value", .num 1)]) (by decide) (by decide) (by decide)
  exact ⟨h.1, h.2 ("resultA", Value.str "A completed") (by decide),
    h.2 ("resultB", Value.str "B completed") (by decide),
    h.2 ("resultC", Value.str "C completed") (by decide)⟩

end ModuLink
